import Mathlib

/-!
Verification development for the auth0-tools user-migration pipeline
(`main.go`, two generations joined in the repository's history).

The embedding models the pure orchestration logic of the source:

* `splitJSONData` / `splitJSONData1` — the stream batcher of the second and
  first generation (`splitJSONData` in `main.go`).  The JSON decoder
  (`encoding/json`) is an external library; its output is modelled as a
  stream of `DecodeEvent`s (a decoded record, or a decode error).  Records
  are modelled as association lists of string keys to flat JSON values;
  `marshalRecord` models `json.Marshal` on a Go map (keys sorted, no
  surrounding whitespace); sizes are UTF-8 byte counts, matching Go's
  `len` on the marshalled bytes.
* `pollLoop` / `checkImportJobStatus` — the second generation's import job
  poller with exponential backoff (initial 5s, a doubling guard reading
  the 30s `maxInterval`, 300s `maxWait`).  The external `m.Job.Read` is
  modelled as `pollFn : Nat → PollResult` giving the result of the n-th
  read; the second component of the result is the trace of applied sleep
  intervals, in order.
* `checkJobStatus` / `exportPollLoop` — the export command's polling loop
  (identical in both generations), fuel-indexed: `none` means the loop is
  still running after that many iterations.
* `importUsersChunk` / `importAll` — the import command's sequential chunk
  loop; the external system's behaviour per chunk is a `ChunkBehavior`.
-/

namespace Auth0Tools

/-! ## JSON records -/

/-- Flat JSON values, enough for exported user records.  Nested values are
orthogonal to the batching logic, which only serializes records and sets one
boolean field. -/
inductive JVal where
  | jnull
  | jbool (b : Bool)
  | jstr (s : String)
  | jnum (n : Int)
deriving DecidableEq

/-- A user record: a Go `map[string]interface{}` modelled as a key-value
list (Go maps have no duplicate keys; records decoded from JSON satisfy
this, and none of the lemmas below need it). -/
abbrev Record := List (String × JVal)

abbrev Chunk := List Record

/-- Value part of `json.Marshal` (no string escaping: the modelled records
use escape-free ASCII strings). -/
def JVal.marshal : JVal → String
  | .jnull => "null"
  | .jbool true => "true"
  | .jbool false => "false"
  | .jstr s => "\"" ++ s ++ "\""
  | .jnum n => toString n

/-- Byte-wise key order, as `json.Marshal` sorts the keys of a Go map
(the modelled keys are ASCII, where character order is byte order). -/
def keyLe : List Char → List Char → Bool
  | [], _ => true
  | _ :: _, [] => false
  | a :: as, b :: bs =>
    if a.toNat < b.toNat then true
    else if b.toNat < a.toNat then false
    else keyLe as bs

/-- Insertion step for sorting record keys, as `json.Marshal` sorts the
keys of a Go map. -/
def insertByKey (p : String × JVal) : List (String × JVal) → List (String × JVal)
  | [] => [p]
  | q :: rest => if keyLe p.1.toList q.1.toList then p :: q :: rest else q :: insertByKey p rest

def sortByKey (r : Record) : Record := r.foldr insertByKey []

/-- `json.Marshal` of a record: `\x7b"k1":v1,"k2":v2\x7d` with keys sorted. -/
def marshalRecord (r : Record) : String :=
  "\x7b" ++
    String.intercalate "," ((sortByKey r).map (fun p => "\"" ++ p.1 ++ "\":" ++ p.2.marshal)) ++
  "\x7d"

/-- `len(userData)` in Go: the marshalled record's byte length. -/
def recordSize (r : Record) : Nat := (marshalRecord r).utf8ByteSize

/-! ## Go map assignment and lookup -/

def hasField : Record → String → Bool
  | [], _ => false
  | p :: rest, k => if p.1 = k then true else hasField rest k

def replaceField : Record → String → JVal → Record
  | [], _, _ => []
  | p :: rest, k, v => if p.1 = k then (k, v) :: replaceField rest k v else p :: replaceField rest k v

/-- Go's `user[k] = v` on a map: replace the binding if the key is present,
otherwise add it. -/
def setField (r : Record) (k : String) (v : JVal) : Record :=
  if hasField r k then replaceField r k v else r ++ [(k, v)]

/-- Go's `user[k]` read. -/
def lookupField : Record → String → Option JVal
  | [], _ => none
  | p :: rest, k => if p.1 = k then some p.2 else lookupField rest k

/-- The second generation's field mutation: `user["email_verified"] = emailVerify`. -/
def mutateRecord (emailVerify : Bool) (user : Record) : Record :=
  setField user "email_verified" (.jbool emailVerify)

/-! ## Stream batcher (`splitJSONData`) -/

/-- One result of the external JSON decoder: a decoded record, or a decode
error.  The second generation uses `json.NewDecoder(reader)` (stream of
documents up to `io.EOF`); the first splits on newlines, skips blank lines
and `json.Unmarshal`s each remaining line.  Both are modelled by the
sequence of decode results they produce. -/
inductive DecodeEvent where
  | ok (user : Record)
  | err (msg : String)
deriving DecidableEq

/-- The records carried by the successful decode events, in order. -/
def okRecords : List DecodeEvent → List Record
  | [] => []
  | .ok u :: rest => u :: okRecords rest
  | .err _ :: rest => okRecords rest

/-- The loop body of the second generation's `splitJSONData` (main.go,
lines 405-444), with the loop state (`chunks`, `chunk`, `chunkSize`) passed
explicitly.  On a decode error the Go function returns `nil, err`,
discarding all accumulated chunks. -/
def splitGo (emailVerify : Bool) (maxChunkSize : Nat) :
    List DecodeEvent → List Chunk → Chunk → Nat → Except String (List Chunk)
  | [], chunks, chunk, _ =>
    if 0 < chunk.length then .ok (chunks ++ [chunk]) else .ok chunks
  | .err msg :: _, _, _, _ => .error ("failed to decode JSON: " ++ msg)
  | .ok u :: rest, chunks, chunk, chunkSize =>
    let user := mutateRecord emailVerify u
    let userSize := recordSize user
    if maxChunkSize < chunkSize + userSize then
      splitGo emailVerify maxChunkSize rest (chunks ++ [chunk]) [user] userSize
    else
      splitGo emailVerify maxChunkSize rest chunks (chunk ++ [user]) (chunkSize + userSize)

/-- Second generation `splitJSONData(reader, maxChunkSize, emailVerify)`. -/
def splitJSONData (events : List DecodeEvent) (maxChunkSize : Nat) (emailVerify : Bool) :
    Except String (List Chunk) :=
  splitGo emailVerify maxChunkSize events [] [] 0

/-- The loop body of the first generation's `splitJSONData` (main.go,
lines 128-168): identical chunking, no field mutation. -/
def splitGo1 (maxChunkSize : Nat) :
    List DecodeEvent → List Chunk → Chunk → Nat → Except String (List Chunk)
  | [], chunks, chunk, _ =>
    if 0 < chunk.length then .ok (chunks ++ [chunk]) else .ok chunks
  | .err msg :: _, _, _, _ => .error ("failed to parse JSON: " ++ msg)
  | .ok user :: rest, chunks, chunk, chunkSize =>
    let userSize := recordSize user
    if maxChunkSize < chunkSize + userSize then
      splitGo1 maxChunkSize rest (chunks ++ [chunk]) [user] userSize
    else
      splitGo1 maxChunkSize rest chunks (chunk ++ [user]) (chunkSize + userSize)

/-- First generation `splitJSONData(data, maxChunkSize)`. -/
def splitJSONData1 (events : List DecodeEvent) (maxChunkSize : Nat) :
    Except String (List Chunk) :=
  splitGo1 maxChunkSize events [] [] 0

/-- Serialized byte size of a chunk's records. -/
def chunkBytes (c : Chunk) : Nat := (c.map recordSize).sum

/-- Whether the batcher aborted with an error (and therefore returned no
batches at all: the Go function returns `nil, err`). -/
def returnedError : Except String (List Chunk) → Bool
  | .error _ => true
  | .ok _ => false

/-! ## Import job poller (`checkImportJobStatus`, second generation) -/

/-- Result of one external `m.Job.Read`: a transport/read error, or the
job's status string. -/
inductive PollResult where
  | err (msg : String)
  | status (s : String)
deriving DecidableEq

/-- Outcome of the import poller. -/
inductive PollOutcome where
  | completed
  | jobFailed
  | pollError (msg : String)
  | timeout
deriving DecidableEq

/-- The interval update `if interval < maxInterval \x7b interval *= 2 \x7d`. -/
def nextInterval (interval maxInterval : Nat) : Nat :=
  if interval < maxInterval then interval * 2 else interval

/-- The loop of `checkImportJobStatus` (main.go, lines 446-476), time in
seconds.  `pollFn n` is the result of the n-th `m.Job.Read`; the second
component of the result is the trace of applied sleep intervals.  The
positivity argument reflects that the interval variable stays positive,
which bounds the loop by the `totalWait < maxWait` guard. -/
def pollLoop (pollFn : Nat → PollResult) (maxInterval maxWait : Nat) :
    (n : Nat) → (interval : Nat) → (totalWait : Nat) → 0 < interval → PollOutcome × List Nat
  | n, interval, totalWait, hpos =>
    if _h : totalWait < maxWait then
      match pollFn n with
      | .err msg => (.pollError msg, [])
      | .status s =>
        if s = "completed" then (.completed, [])
        else if s = "failed" then (.jobFailed, [])
        else
          let rest := pollLoop pollFn maxInterval maxWait (n + 1)
            (nextInterval interval maxInterval) (totalWait + interval)
            (show 0 < nextInterval interval maxInterval by
              unfold nextInterval; split <;> omega)
          (rest.1, interval :: rest.2)
    else (.timeout, [])
termination_by _ _ totalWait _ => maxWait - totalWait
decreasing_by simp_wf; omega

/-- `checkImportJobStatus` of the second generation: interval starts at 5s,
interval ceiling 30s, total wait ceiling 300s (5 minutes). -/
def checkImportJobStatus (pollFn : Nat → PollResult) : PollOutcome × List Nat :=
  pollLoop pollFn 30 300 0 5 0 (by decide)

/-- A job that never leaves `pending`. -/
def pendingPollFn : Nat → PollResult := fun _ => .status "pending"

/-- A job read that always fails with a transport error. -/
def errPollFn : Nat → PollResult := fun _ => .err "connection reset"

/-- A poll result that is neither a transport error nor a terminal status
(the poller treats every such status as still pending). -/
def isNonterminal : PollResult → Bool
  | .err _ => false
  | .status s => !(s = "completed" : Bool) && !(s = "failed" : Bool)

/-! ## Export polling (`checkJobStatus` and the `exportCmd.Run` loop) -/

/-- The fields of `management.Job` the export loop inspects. -/
structure Job where
  status : String
  location : String
deriving DecidableEq

/-- `checkJobStatus` (identical in both generations, main.go lines
348-359): propagates a read error, returns the location only when the
status is `completed`, and otherwise reports `job not completed yet` —
for any other status, `failed` included. -/
def checkJobStatus (readResult : Except String Job) : Except String String :=
  match readResult with
  | .error e => .error e
  | .ok job =>
    if job.status = "completed" then .ok job.location
    else .error "job not completed yet"

/-- The polling loop of `exportCmd.Run` (identical in both generations):
sleep 10s, call `checkJobStatus`, break only on success, otherwise print
and loop again — with no failure detection and no wait ceiling.  `readFn n`
is the n-th `m.Job.Read`; the result is fuel-indexed: `some location` if
the loop exits within `fuel` iterations, `none` if it is still looping. -/
def exportPollLoop (readFn : Nat → Except String Job) : Nat → Nat → Option String
  | _, 0 => none
  | n, fuel + 1 =>
    match checkJobStatus (readFn n) with
    | .ok location => some location
    | .error _ => exportPollLoop readFn (n + 1) fuel

/-- An export job that is pending for two polls and then transitions to
`failed` forever. -/
def failedReadFn : Nat → Except String Job := fun n =>
  if n < 2 then .ok ⟨"pending", ""⟩ else .ok ⟨"failed", ""⟩

/-! ## Import orchestration (`importUsersChunk` and the `importCmd.Run` loop) -/

/-- External behaviour of one chunk's import: the error of the
`m.Job.ImportUsers` call if it fails, and the results of the subsequent
`m.Job.Read` polls. -/
structure ChunkBehavior where
  startError : Option String
  pollFn : Nat → PollResult

/-- `importUsersChunk` (second generation, main.go lines 478-491): one
`ImportUsers` start call, then `checkImportJobStatus` on the created job. -/
def importUsersChunk (b : ChunkBehavior) : Except String Unit :=
  match b.startError with
  | some e => .error ("failed to import users: " ++ e)
  | none =>
    match (checkImportJobStatus b.pollFn).1 with
    | .completed => .ok ()
    | .jobFailed => .error "import job failed"
    | .pollError e => .error ("failed to read job status: " ++ e)
    | .timeout => .error "import job timed out"

/-- Observable outcome of an import run: how many `ImportUsers` start
calls were made, how many chunks were fully imported (they stay imported —
nothing rolls them back), and the 1-based index of the failing chunk that
`log.Fatalf` reports, if any. -/
structure ImportRun where
  startCalls : Nat
  importedChunks : Nat
  failedChunk : Option Nat
deriving DecidableEq

/-- The chunk loop of `importCmd.Run` (main.go lines 572-579): chunks are
imported strictly in order; on the first `importUsersChunk` error the run
aborts via `log.Fatalf` (no later chunk is attempted, nothing is rolled
back).  `env i` is the external behaviour of chunk `i`'s import. -/
def importAllLoop (env : Nat → ChunkBehavior) : Nat → List Chunk → ImportRun
  | _, [] => ⟨0, 0, none⟩
  | i, _chunk :: rest =>
    match importUsersChunk (env i) with
    | .ok _ =>
      let r := importAllLoop env (i + 1) rest
      ⟨r.startCalls + 1, r.importedChunks + 1, r.failedChunk⟩
    | .error _ => ⟨1, 0, some (i + 1)⟩

def importAll (env : Nat → ChunkBehavior) (chunks : List Chunk) : ImportRun :=
  importAllLoop env 0 chunks

/-- Import environment for the abort scenario: chunk 0's job completes on
the first poll, every later chunk's job reports `failed` on the first
poll. -/
def demoEnv : Nat → ChunkBehavior
  | 0 => ⟨none, fun _ => .status "completed"⟩
  | _ + 1 => ⟨none, fun _ => .status "failed"⟩

/-- Sample records for concrete witnesses (the spec's round-trip
scenario). -/
def wr1 : Record := [("user_id", JVal.jstr "1"), ("email", JVal.jstr "a@x.com")]

def wr2 : Record := [("user_id", JVal.jstr "2"), ("email", JVal.jstr "b@x.com")]

def wmr1 : Record := wr1 ++ [("email_verified", JVal.jbool true)]

def wmr2 : Record := wr2 ++ [("email_verified", JVal.jbool true)]

/-! ## Sanity of the marshalling model -/

theorem marshalRecord_sample :
    marshalRecord [("user_id", .jstr "1")] = "\x7b\"user_id\":\"1\"\x7d" := rfl

/-! ## Unfolding lemmas for the poll loop -/

theorem nextInterval_pos {i m : Nat} (h : 0 < i) : 0 < nextInterval i m := by
  unfold nextInterval; split <;> omega

theorem pollLoop_stop {pollFn : Nat → PollResult} {maxI maxW n i tw : Nat}
    {hpos : 0 < i} (h : ¬ tw < maxW) :
    pollLoop pollFn maxI maxW n i tw hpos = (.timeout, []) := by
  rw [pollLoop]
  exact dif_neg h

theorem pollLoop_readErr {pollFn : Nat → PollResult} {maxI maxW n i tw : Nat}
    {hpos : 0 < i} {msg : String} (h : tw < maxW) (he : pollFn n = .err msg) :
    pollLoop pollFn maxI maxW n i tw hpos = (.pollError msg, []) := by
  rw [pollLoop, dif_pos h, he]

theorem pollLoop_complete {pollFn : Nat → PollResult} {maxI maxW n i tw : Nat}
    {hpos : 0 < i} (h : tw < maxW) (hs : pollFn n = .status "completed") :
    pollLoop pollFn maxI maxW n i tw hpos = (.completed, []) := by
  rw [pollLoop, dif_pos h, hs]
  simp

theorem pollLoop_fail {pollFn : Nat → PollResult} {maxI maxW n i tw : Nat}
    {hpos : 0 < i} (h : tw < maxW) (hs : pollFn n = .status "failed") :
    pollLoop pollFn maxI maxW n i tw hpos = (.jobFailed, []) := by
  rw [pollLoop, dif_pos h, hs]
  simp

theorem pollLoop_pend {pollFn : Nat → PollResult} {maxI maxW n i tw : Nat}
    {hpos : 0 < i} {s : String} (h : tw < maxW) (hs : pollFn n = .status s)
    (h1 : s ≠ "completed") (h2 : s ≠ "failed") :
    pollLoop pollFn maxI maxW n i tw hpos =
      ((pollLoop pollFn maxI maxW (n + 1) (nextInterval i maxI) (tw + i)
          (nextInterval_pos hpos)).1,
        i :: (pollLoop pollFn maxI maxW (n + 1) (nextInterval i maxI) (tw + i)
          (nextInterval_pos hpos)).2) := by
  conv_lhs => rw [pollLoop]
  rw [dif_pos h, hs]
  simp [h1, h2]

/-- Main invariant of the poll loop under a never-terminal `pollFn`: the
loop ends in `timeout`, the accumulated wait reaches `maxWait`, and it
overshoots `maxWait` by less than `B`, where `B` bounds every interval the
loop can apply (`interval ≤ B` and `2 * maxInterval ≤ B` are preserved by
the doubling step). -/
theorem pollLoop_pending_timeout (pollFn : Nat → PollResult) (maxI maxW B : Nat)
    (hpend : ∀ m, isNonterminal (pollFn m) = true) (hB : 2 * maxI ≤ B) :
    ∀ d n i tw (hpos : 0 < i), maxW - tw ≤ d → i ≤ B → tw < maxW + B →
      (pollLoop pollFn maxI maxW n i tw hpos).1 = .timeout ∧
      maxW ≤ tw + (pollLoop pollFn maxI maxW n i tw hpos).2.sum ∧
      tw + (pollLoop pollFn maxI maxW n i tw hpos).2.sum < maxW + B := by
  intro d
  induction d with
  | zero =>
    intro n i tw hpos hd hi htw
    rw [pollLoop_stop (by omega)]
    simp
    omega
  | succ d ih =>
    intro n i tw hpos hd hi htw
    by_cases hlt : tw < maxW
    · have hn := hpend n
      cases hpf : pollFn n with
      | err msg => rw [hpf] at hn; simp [isNonterminal] at hn
      | status s =>
        rw [hpf] at hn
        simp only [isNonterminal, Bool.and_eq_true, Bool.not_eq_true', decide_eq_false_iff_not]
          at hn
        rw [pollLoop_pend hlt hpf hn.1 hn.2]
        have hni : nextInterval i maxI ≤ B := by unfold nextInterval; split <;> omega
        have := ih (n + 1) (nextInterval i maxI) (tw + i) (nextInterval_pos hpos)
          (by omega) hni (by omega)
        simp only [List.sum_cons]
        exact ⟨this.1, by omega, by omega⟩
    · rw [pollLoop_stop hlt]
      simp
      omega

/-! ## Lemmas about the stream batcher -/

theorem splitGo_join (ev : Bool) (m : Nat) :
    ∀ (es : List DecodeEvent) (chunks : List Chunk) (chunk : Chunk) (sz : Nat)
      (cs : List Chunk), splitGo ev m es chunks chunk sz = .ok cs →
      cs.flatten = chunks.flatten ++ chunk ++ (okRecords es).map (mutateRecord ev) := by
  intro es
  induction es with
  | nil =>
    intro chunks chunk sz cs h
    simp only [splitGo] at h
    split at h
    · simp only [Except.ok.injEq] at h
      subst h
      simp [okRecords, List.flatten_append]
    · rename_i hlen
      have hc : chunk = [] := by
        cases chunk with
        | nil => rfl
        | cons a l => simp at hlen
      simp only [Except.ok.injEq] at h
      subst h
      simp [okRecords, hc]
  | cons e rest ih =>
    intro chunks chunk sz cs h
    cases e with
    | err msg => simp [splitGo] at h
    | ok u =>
      simp only [splitGo] at h
      split at h
      · have := ih _ _ _ _ h
        simp_all [okRecords, List.flatten_append]
      · have := ih _ _ _ _ h
        simp_all [okRecords, List.flatten_append]

theorem splitGo1_join (m : Nat) :
    ∀ (es : List DecodeEvent) (chunks : List Chunk) (chunk : Chunk) (sz : Nat)
      (cs : List Chunk), splitGo1 m es chunks chunk sz = .ok cs →
      cs.flatten = chunks.flatten ++ chunk ++ okRecords es := by
  intro es
  induction es with
  | nil =>
    intro chunks chunk sz cs h
    simp only [splitGo1] at h
    split at h
    · simp only [Except.ok.injEq] at h
      subst h
      simp [okRecords, List.flatten_append]
    · rename_i hlen
      have hc : chunk = [] := by
        cases chunk with
        | nil => rfl
        | cons a l => simp at hlen
      simp only [Except.ok.injEq] at h
      subst h
      simp [okRecords, hc]
  | cons e rest ih =>
    intro chunks chunk sz cs h
    cases e with
    | err msg => simp [splitGo1] at h
    | ok u =>
      simp only [splitGo1] at h
      split at h
      · have := ih _ _ _ _ h
        simp_all [okRecords, List.flatten_append]
      · have := ih _ _ _ _ h
        simp_all [okRecords, List.flatten_append]

theorem splitGo_bound (ev : Bool) (m : Nat) :
    ∀ (es : List DecodeEvent) (chunks : List Chunk) (chunk : Chunk) (sz : Nat)
      (cs : List Chunk), splitGo ev m es chunks chunk sz = .ok cs →
      sz = chunkBytes chunk →
      (1 < chunk.length → chunkBytes chunk ≤ m) →
      (∀ c ∈ chunks, 1 < c.length → chunkBytes c ≤ m) →
      ∀ c ∈ cs, 1 < c.length → chunkBytes c ≤ m := by
  intro es
  induction es with
  | nil =>
    intro chunks chunk sz cs h hsz hcur hprev
    simp only [splitGo] at h
    split at h
    · cases h
      intro c hc
      rcases List.mem_append.mp hc with hc | hc
      · exact hprev c hc
      · simp at hc
        subst hc
        exact hcur
    · cases h
      exact hprev
  | cons e rest ih =>
    intro chunks chunk sz cs h hsz hcur hprev
    cases e with
    | err msg => simp [splitGo] at h
    | ok u =>
      simp only [splitGo] at h
      split at h
      · refine ih _ _ _ _ h ?_ ?_ ?_
        · simp [chunkBytes]
        · simp
        · intro c hc
          rcases List.mem_append.mp hc with hc | hc
          · exact hprev c hc
          · simp at hc
            subst hc
            exact hcur
      · rename_i hle
        refine ih _ _ _ _ h ?_ ?_ hprev
        · simp [chunkBytes, hsz]
        · intro _
          have : sz + recordSize (mutateRecord ev u) ≤ m := by omega
          simp [chunkBytes, hsz] at this ⊢
          omega

theorem splitGo_error (ev : Bool) (m : Nat) :
    ∀ (es : List DecodeEvent) (chunks : List Chunk) (chunk : Chunk) (sz : Nat),
      (∃ msg, DecodeEvent.err msg ∈ es) →
      ∃ e, splitGo ev m es chunks chunk sz = .error e := by
  intro es
  induction es with
  | nil =>
    intro chunks chunk sz h
    simp at h
  | cons e rest ih =>
    intro chunks chunk sz h
    cases e with
    | err msg => exact ⟨_, rfl⟩
    | ok u =>
      obtain ⟨msg, hmem⟩ := h
      simp at hmem
      simp only [splitGo]
      split
      · exact ih _ _ _ ⟨msg, hmem⟩
      · exact ih _ _ _ ⟨msg, hmem⟩

/-! ## Lemmas about the field mutation -/

theorem lookupField_replaceField_self (k : String) (v : JVal) :
    ∀ r : Record, hasField r k = true →
      lookupField (replaceField r k v) k = some v := by
  intro r
  induction r with
  | nil => simp [hasField]
  | cons p rest ih =>
    intro h
    by_cases hp : p.1 = k
    · simp [replaceField, lookupField, hp]
    · simp only [hasField, if_neg hp] at h
      simp [replaceField, lookupField, hp, ih h]

theorem lookupField_append_self (k : String) (v : JVal) :
    ∀ r : Record, hasField r k = false →
      lookupField (r ++ [(k, v)]) k = some v := by
  intro r
  induction r with
  | nil => simp [lookupField]
  | cons p rest ih =>
    intro h
    by_cases hp : p.1 = k
    · simp [hasField, hp] at h
    · simp only [hasField, if_neg hp] at h
      simp [lookupField, hp, ih h]

theorem lookupField_setField_self (r : Record) (k : String) (v : JVal) :
    lookupField (setField r k v) k = some v := by
  unfold setField
  split
  · exact lookupField_replaceField_self k v r (by assumption)
  · exact lookupField_append_self k v r (by simp_all)

theorem lookupField_replaceField_frame (k k' : String) (v : JVal) (hk : k' ≠ k) :
    ∀ r : Record, lookupField (replaceField r k v) k' = lookupField r k' := by
  intro r
  induction r with
  | nil => simp [replaceField]
  | cons p rest ih =>
    by_cases hp : p.1 = k
    · have hne : ¬ p.1 = k' := by rw [hp]; exact Ne.symm hk
      simp [replaceField, lookupField, hp, hne, Ne.symm hk, ih]
    · simp [replaceField, lookupField, hp, ih]

theorem lookupField_append_frame (k k' : String) (v : JVal) (hk : k' ≠ k) :
    ∀ r : Record, lookupField (r ++ [(k, v)]) k' = lookupField r k' := by
  intro r
  induction r with
  | nil => simp [lookupField, Ne.symm hk]
  | cons p rest ih =>
    by_cases hp' : p.1 = k'
    · simp [lookupField, hp']
    · simp [lookupField, hp', ih]

theorem lookupField_setField_frame (r : Record) (k k' : String) (v : JVal)
    (hk : k' ≠ k) : lookupField (setField r k v) k' = lookupField r k' := by
  unfold setField
  split
  · exact lookupField_replaceField_frame k k' v hk r
  · exact lookupField_append_frame k k' v hk r

/-! ## Claims -/

/-- Claim C1 (code bug in the source): the export polling loop of
`exportCmd.Run` never fails with an export failure and never times out.
`checkJobStatus` maps every status other than `completed` — `failed`
included — to the error `job not completed yet`, and the loop retries on
every error with no wait ceiling.  Against a job that transitions
pending → failed, the loop is still running after any number of
iterations, so it neither reports the failure nor reaches a timeout, while
the claim (and spec section 4.4) require `ExportFailed` / `ExportTimeout`;
spec section 9 itself calls the unbounded polling pattern a defect. -/
theorem exportPoll_never_detects_failure :
    ∀ (fuel n : Nat), exportPollLoop failedReadFn n fuel = none := by
  intro fuel
  induction fuel with
  | zero => intro n; rfl
  | succ f ih =>
    intro n
    have hc : checkJobStatus (failedReadFn n) = .error "job not completed yet" := by
      by_cases hn : n < 2 <;> simp [failedReadFn, checkJobStatus, hn]
    simp [exportPollLoop, hc, ih]

/-- Claim C2 (code bug in the source): polling a permanently pending job,
`checkImportJobStatus` applies the sleep intervals
`[5, 10, 20, 40, 40, 40, 40, 40, 40, 40]` (seconds).  The sequence is
non-decreasing, but from the fourth tick on the applied interval is 40s,
exceeding the 30s `maxInterval`: the update `if interval < maxInterval
\x7b interval *= 2 \x7d` doubles 20 to 40 because 20 < 30, so the applied
interval is not capped by the ceiling as the claim states. -/
theorem importPoll_interval_exceeds_ceiling :
    checkImportJobStatus pendingPollFn = (.timeout, [5, 10, 20, 40, 40, 40, 40, 40, 40, 40]) ∧
    List.Chain' (· ≤ ·) (checkImportJobStatus pendingPollFn).2 ∧
    ∃ i ∈ (checkImportJobStatus pendingPollFn).2, 30 < i := by
  have h : checkImportJobStatus pendingPollFn =
      (.timeout, [5, 10, 20, 40, 40, 40, 40, 40, 40, 40]) := by
    unfold checkImportJobStatus
    rw [pollLoop_pend (by decide) rfl (by decide) (by decide)]
    rw [pollLoop_pend (by decide) rfl (by decide) (by decide)]
    rw [pollLoop_pend (by decide) rfl (by decide) (by decide)]
    rw [pollLoop_pend (by decide) rfl (by decide) (by decide)]
    rw [pollLoop_pend (by decide) rfl (by decide) (by decide)]
    rw [pollLoop_pend (by decide) rfl (by decide) (by decide)]
    rw [pollLoop_pend (by decide) rfl (by decide) (by decide)]
    rw [pollLoop_pend (by decide) rfl (by decide) (by decide)]
    rw [pollLoop_pend (by decide) rfl (by decide) (by decide)]
    rw [pollLoop_pend (by decide) rfl (by decide) (by decide)]
    rw [pollLoop_stop (by decide)]
    decide
  refine ⟨h, ?_, ?_⟩
  · rw [h]
    simp [List.chain'_cons]
  · rw [h]
    decide

/-- Claim C3 (code bug in the source): an empty event stream yields zero
batches, but a stream whose first record is oversized does produce an
empty batch.  `splitJSONData` appends the current chunk before starting a
new one whenever `chunkSize + userSize > maxChunkSize`, without checking
that the current chunk is non-empty, so a first record larger than
`maxChunkSize` (here: the mutated empty record, 23 bytes, against a 1-byte
cap) makes the output `[[], [record]]` — contradicting the claim and the
repository's own test (`TestSplitJSONData`: "Chunk should not be empty"). -/
theorem splitJSONData_emits_empty_batch :
    splitJSONData [] 1 true = .ok [] ∧
    splitJSONData [.ok []] 1 true = .ok [[], [[("email_verified", JVal.jbool true)]]] ∧
    ([] : Chunk) ∈ [([] : Chunk), [[("email_verified", JVal.jbool true)]]] :=
  ⟨rfl, rfl, by simp⟩

/-- Claim C4: on every event stream on which the batcher succeeds,
concatenating the produced batches in order reproduces the decoded record
sequence exactly — with the single controlled `email_verified` override
applied pointwise in the second generation, and literally in the first
generation — so no record is lost, duplicated or reordered. -/
theorem split_join_partition (es : List DecodeEvent) (m : Nat) (ev : Bool)
    (cs cs1 : List Chunk)
    (h : splitJSONData es m ev = .ok cs) (h1 : splitJSONData1 es m = .ok cs1) :
    cs.flatten = (okRecords es).map (mutateRecord ev) ∧ cs1.flatten = okRecords es := by
  constructor
  · have := splitGo_join ev m es [] [] 0 cs h
    simpa using this
  · have := splitGo1_join m es [] [] 0 cs1 h1
    simpa using this

theorem split_join_partition_witness :
    ([[wmr1, wmr2]] : List Chunk).flatten = [wmr1, wmr2] ∧
    ([[wr1, wr2]] : List Chunk).flatten = [wr1, wr2] :=
  split_join_partition [.ok wr1, .ok wr2] 1000 true [[wmr1, wmr2]] [[wr1, wr2]] rfl rfl

/-- Claim C5: every batch produced by `splitJSONData` that holds more than
one record has cumulative serialized size at most `maxChunkSize`, and a
record whose serialized size alone exceeds `maxChunkSize` always sits in a
singleton batch (the cap is checked before appending, so only the
first record of a batch can be oversized, and then nothing else joins
it). -/
theorem split_chunk_size_bound (es : List DecodeEvent) (m : Nat) (ev : Bool)
    (cs : List Chunk) (h : splitJSONData es m ev = .ok cs) (c : Chunk) (hc : c ∈ cs) :
    (1 < c.length → chunkBytes c ≤ m) ∧
    (∀ r ∈ c, m < recordSize r → c.length = 1) := by
  have hb := splitGo_bound ev m es [] [] 0 cs h rfl (by simp) (by simp) c hc
  refine ⟨hb, ?_⟩
  intro r hr hm
  by_contra hlen
  have hmem : recordSize r ∈ c.map recordSize := List.mem_map_of_mem _ hr
  have hle : recordSize r ≤ chunkBytes c :=
    List.single_le_sum (fun x _ => Nat.zero_le x) _ hmem
  have h2 : 1 < c.length := by
    rcases c with _ | ⟨a, c⟩
    · simp at hr
    · rcases c with _ | ⟨b, c⟩
      · simp at hlen
      · simp
  have := hb h2
  omega

theorem split_chunk_size_bound_witness : chunkBytes [wmr1, wmr2] ≤ 1000 :=
  (split_chunk_size_bound [.ok wr1, .ok wr2] 1000 true [[wmr1, wmr2]] rfl
    [wmr1, wmr2] (by simp)).1 (by simp)

/-- Claim C6: for every poll policy (any `maxInterval`, `maxWait` and
positive initial interval) and every `pollFn` that never returns a
terminal status, the poll loop terminates with `timeout`: the accumulated
wait (the sum of applied sleeps) reaches `maxWait` and overshoots it by
less than one interval bound `max i0 (2 * maxInterval)`; in particular the
source's `checkImportJobStatus` (5s/30s/300s) returns its timeout error. -/
theorem poller_timeout (pollFn : Nat → PollResult) (maxI maxW i0 : Nat)
    (hpos : 0 < i0) (hpend : ∀ m, isNonterminal (pollFn m) = true) :
    (pollLoop pollFn maxI maxW 0 i0 0 hpos).1 = .timeout ∧
    maxW ≤ (pollLoop pollFn maxI maxW 0 i0 0 hpos).2.sum ∧
    (pollLoop pollFn maxI maxW 0 i0 0 hpos).2.sum < maxW + max i0 (2 * maxI) ∧
    (checkImportJobStatus pollFn).1 = .timeout := by
  have hB1 : i0 ≤ max i0 (2 * maxI) := le_max_left _ _
  have hB2 : 2 * maxI ≤ max i0 (2 * maxI) := le_max_right _ _
  have hB0 : 0 < max i0 (2 * maxI) := lt_of_lt_of_le hpos hB1
  have hmain := pollLoop_pending_timeout pollFn maxI maxW (max i0 (2 * maxI)) hpend hB2
    maxW 0 i0 0 hpos (by omega) hB1
    (lt_of_lt_of_le hB0 (Nat.le_add_left _ _))
  have hconc := pollLoop_pending_timeout pollFn 30 300 60 hpend (by omega)
    300 0 5 0 (by decide) (by omega) (by omega) (by omega)
  exact ⟨hmain.1, by have := hmain.2.1; omega, by have := hmain.2.2; omega, hconc.1⟩

theorem poller_timeout_witness :
    (pollLoop pendingPollFn 30 300 0 5 0 (by decide)).1 = PollOutcome.timeout ∧
    300 ≤ (pollLoop pendingPollFn 30 300 0 5 0 (by decide)).2.sum ∧
    (pollLoop pendingPollFn 30 300 0 5 0 (by decide)).2.sum < 300 + max 5 (2 * 30) ∧
    (checkImportJobStatus pendingPollFn).1 = PollOutcome.timeout :=
  poller_timeout pendingPollFn 30 300 5 (by decide) (fun _ => rfl)

/-- Claim C7: `importCmd.Run` processes chunks strictly in order and
aborts on the first chunk whose import job fails: with three chunks where
chunk 2's job reports `failed`, exactly two `ImportUsers` start calls are
made, the third chunk is never attempted, and the one previously imported
chunk stays imported (nothing is rolled back). -/
theorem importAll_aborts_on_failure (env : Nat → ChunkBehavior) (c1 c2 c3 : Chunk)
    (h0 : importUsersChunk (env 0) = .ok ())
    (h1 : (env 1).startError = none)
    (h2 : (checkImportJobStatus (env 1).pollFn).1 = .jobFailed) :
    importAll env [c1, c2, c3] = ⟨2, 1, some 2⟩ := by
  have he : importUsersChunk (env 1) = .error "import job failed" := by
    unfold importUsersChunk
    rw [h1, h2]
  simp only [importAll, importAllLoop, h0, he]

theorem importAll_aborts_on_failure_witness :
    importAll demoEnv [[], [], []] = ⟨2, 1, some 2⟩ :=
  importAll_aborts_on_failure demoEnv [] [] []
    (by
      have hc : (checkImportJobStatus (demoEnv 0).pollFn).1 = .completed := by
        unfold checkImportJobStatus
        rw [pollLoop_complete (by decide) rfl]
      unfold importUsersChunk
      rw [hc]
      rfl)
    rfl
    (by
      unfold checkImportJobStatus
      rw [pollLoop_fail (by decide) rfl])

/-- Claim C8: from any reachable state of the job poller (any policy, any
accumulated wait below the ceiling), a transport/read error returned by
`pollFn` propagates immediately as the poll-error outcome: the loop
performs no sleep and no further poll after the error (the trace of
applied sleeps from that state is empty), rather than treating the error
as a pending status or retrying internally. -/
theorem pollError_propagates (pollFn : Nat → PollResult) (maxI maxW n i tw : Nat)
    (hpos : 0 < i) (msg : String) (hlt : tw < maxW) (he : pollFn n = .err msg) :
    pollLoop pollFn maxI maxW n i tw hpos = (.pollError msg, []) :=
  pollLoop_readErr hlt he

theorem pollError_propagates_witness :
    pollLoop errPollFn 30 300 0 5 0 (by decide) = (.pollError "connection reset", []) :=
  pollError_propagates errPollFn 30 300 0 5 0 (by decide) "connection reset" (by decide) rfl

/-- Claim C9: if the event stream contains any malformed record (a decode
error event), `splitJSONData` fails with the decode error and returns no
batches at all — the Go function returns `nil, err`, so even batches fully
formed before the malformed record are discarded. -/
theorem split_decode_error_aborts (es : List DecodeEvent) (m : Nat) (ev : Bool)
    (h : ∃ msg, DecodeEvent.err msg ∈ es) :
    returnedError (splitJSONData es m ev) = true := by
  obtain ⟨e, he⟩ := splitGo_error ev m es [] [] 0 h
  unfold splitJSONData
  rw [he]
  rfl

theorem split_decode_error_aborts_witness :
    returnedError
      (splitJSONData [.ok wr1, .err "unexpected end of JSON input", .ok wr2] 500000 true) =
      true :=
  split_decode_error_aborts _ 500000 true ⟨"unexpected end of JSON input", by simp⟩

/-- Claim C10: every record emitted by the second-generation batcher is
the corresponding decoded record with `email_verified` unconditionally set
to the `emailVerify` argument: emitted records carry
`email_verified = emailVerify` (overriding any input value), and the
mutation leaves every other field unchanged. -/
theorem split_email_verified_override (es : List DecodeEvent) (m : Nat) (ev : Bool)
    (cs : List Chunk) (h : splitJSONData es m ev = .ok cs) :
    cs.flatten = (okRecords es).map (mutateRecord ev) ∧
    (∀ r ∈ cs.flatten, lookupField r "email_verified" = some (.jbool ev)) ∧
    (∀ u : Record, ∀ k : String, k ≠ "email_verified" →
      lookupField (mutateRecord ev u) k = lookupField u k) := by
  have hj : cs.flatten = (okRecords es).map (mutateRecord ev) := by
    have := splitGo_join ev m es [] [] 0 cs h
    simpa using this
  refine ⟨hj, ?_, ?_⟩
  · intro r hr
    rw [hj] at hr
    obtain ⟨u, _, rfl⟩ := List.mem_map.mp hr
    exact lookupField_setField_self u "email_verified" (.jbool ev)
  · intro u k hk
    exact lookupField_setField_frame u "email_verified" k (.jbool ev) hk

theorem split_email_verified_override_witness :
    lookupField wmr1 "email_verified" = some (JVal.jbool true) :=
  (split_email_verified_override [.ok wr1] 1000 true [[wmr1]] rfl).2.1 wmr1 (by simp)

end Auth0Tools
